import Mathlib

/-!
Shallow embedding of the chart engine in `src/app.js` (a CSV line-chart
viewer).  JavaScript numbers are modelled by `ℚ` (the engine's arithmetic is
plain `+ - * /` on millisecond timestamps, pixel coordinates and channel
values).  A JS number that may be NaN or infinite ("non-finite") is modelled
by `Option ℚ`, `none` standing for a non-finite value.
-/

namespace EnvLogger

/-- `clamp` (app.js line 27): `(v, a, b) => Math.max(a, Math.min(b, v))`. -/
def clamp (v a b : ℚ) : ℚ := max a (min b v)

/-- The minimum wheel-zoom span `5 * 60 * 1000` ms (app.js line 434). -/
def minSpanMs : ℚ := 5 * 60 * 1000

/-- The view window `view = {x0, x1}` in ms (app.js line 103). -/
structure Viewport where
  x0 : ℚ
  x1 : ℚ
deriving DecidableEq

/-- A normalized data point (app.js lines 488-497): the ms timestamp `x` and
the three numeric channels; `none` models a non-finite channel value.  The
`t : Date` field (used only for label text) is omitted. -/
structure NormPoint where
  x : ℚ
  temp_OUT : Option ℚ
  moist_lv : Option ℚ
  light : Option ℚ
deriving DecidableEq

def dfltPoint : NormPoint := ⟨0, none, none, none⟩

/-! ## Layout constants and coordinate transforms (app.js 108-109, 151-159) -/

def padLeft : ℚ := 64
def padRight : ℚ := 64
def padTop : ℚ := 18
def padBottom : ℚ := 46
def legendH : ℚ := 24

/-- The plot rectangle plus the view window, as built by `draw()`
(app.js 288-295) and by `hitTest` (app.js 327-334). -/
structure Plot where
  left : ℚ
  right : ℚ
  top : ℚ
  bottom : ℚ
  x0 : ℚ
  x1 : ℚ
deriving DecidableEq

def mkPlot (cssW cssH : ℚ) (view : Viewport) : Plot :=
  ⟨padLeft, cssW - padRight, padTop + legendH, cssH - padBottom, view.x0, view.x1⟩

/-- `xToPx` (app.js 151-154). -/
def xToPx (x : ℚ) (plot : Plot) : ℚ :=
  plot.left + (x - plot.x0) / (plot.x1 - plot.x0) * (plot.right - plot.left)

/-- `yToPx` (app.js 156-159). -/
def yToPx (y : ℚ) (dom : ℚ × ℚ) (top bottom : ℚ) : ℚ :=
  bottom - (y - dom.1) / (dom.2 - dom.1) * (bottom - top)

/-! ## Per-axis value domains (app.js 135-149) -/

/-- One accumulation step of the `min`/`max` scan in `domainForKey`
(app.js 138-144): points outside `[x0, x1]` and non-finite channel values
are skipped.  The `Option` accumulator models the initial
`min = Infinity, max = -Infinity` pair not yet updated by a finite value. -/
def domainStep (x0 x1 : ℚ) (val : NormPoint → Option ℚ) (acc : Option (ℚ × ℚ)) (p : NormPoint) : Option (ℚ × ℚ) :=
  if p.x < x0 ∨ p.x > x1 then acc
  else
    match val p with
    | none => acc
    | some v =>
      match acc with
      | none => some (v, v)
      | some (mn, mx) => some (min mn v, max mx v)

def domainScan (val : NormPoint → Option ℚ) (x0 x1 : ℚ) (data : List NormPoint) : Option (ℚ × ℚ) :=
  data.foldl (domainStep x0 x1 val) none

/-- `domainStep` without the view-window test: used to state exactly which
points the scan consumes. -/
def domainStepAll (val : NormPoint → Option ℚ) (acc : Option (ℚ × ℚ)) (p : NormPoint) : Option (ℚ × ℚ) :=
  match val p with
  | none => acc
  | some v =>
    match acc with
    | none => some (v, v)
    | some (mn, mx) => some (min mn v, max mx v)

def domainScanAll (val : NormPoint → Option ℚ) (data : List NormPoint) : Option (ℚ × ℚ) :=
  data.foldl (domainStepAll val) none

/-- `domainForKey` (app.js 135-149); `0.06` is exactly `6/100`. -/
def domainForKey (val : NormPoint → Option ℚ) (x0 x1 : ℚ) (data : List NormPoint) : ℚ × ℚ :=
  match domainScan val x0 x1 data with
  | none => (0, 1)
  | some (mn, mx) =>
    if mn = mx then (mn - 1, mx + 1)
    else (mn - (mx - mn) * (6 / 100), mx + (mx - mn) * (6 / 100))

/-- The visibility test shared by `domainForKey` (line 139) and `drawSeries`
(lines 234, 249): the skip condition is `p.x < x0 || p.x > x1`. -/
def visiblePass (x0 x1 : ℚ) (p : NormPoint) : Bool :=
  !(decide (p.x < x0) || decide (p.x > x1))

/-! ## Series drawing (app.js 224-257) -/

inductive PathCmd where
  | moveTo (x y : ℚ)
  | lineTo (x y : ℚ)
deriving DecidableEq

/-- The per-point loop of one series in `drawSeries` (app.js 233-241 and
248-256) with the `started` flag threaded explicitly; the emitted
`moveTo`/`lineTo` calls are collected in order.  `started` is never reset
inside the loop, exactly as in the source. -/
def drawSeriesGo (val : NormPoint → Option ℚ) (plot : Plot) (dom : ℚ × ℚ) : List NormPoint → Bool → List PathCmd
  | [], _ => []
  | p :: ps, started =>
    if p.x < plot.x0 ∨ p.x > plot.x1 then drawSeriesGo val plot dom ps started
    else
      match val p with
      | none => drawSeriesGo val plot dom ps started
      | some v =>
        (if started then PathCmd.lineTo (xToPx p.x plot) (yToPx v dom plot.top plot.bottom)
         else PathCmd.moveTo (xToPx p.x plot) (yToPx v dom plot.top plot.bottom)) ::
          drawSeriesGo val plot dom ps true

/-- The path emitted for one series by `drawSeries`. -/
def drawSeriesPath (data : List NormPoint) (val : NormPoint → Option ℚ) (plot : Plot) (dom : ℚ × ℚ) : List PathCmd :=
  drawSeriesGo val plot dom data false

/-- `drawSeriesGo` without the view-window test: used to state exactly which
points the drawing loop consumes. -/
def drawSeriesGoAll (val : NormPoint → Option ℚ) (plot : Plot) (dom : ℚ × ℚ) : List NormPoint → Bool → List PathCmd
  | [], _ => []
  | p :: ps, started =>
    match val p with
    | none => drawSeriesGoAll val plot dom ps started
    | some v =>
      (if started then PathCmd.lineTo (xToPx p.x plot) (yToPx v dom plot.top plot.bottom)
       else PathCmd.moveTo (xToPx p.x plot) (yToPx v dom plot.top plot.bottom)) ::
        drawSeriesGoAll val plot dom ps true

/-- Pixel position of a point/value pair. -/
def toPix (plot : Plot) (dom : ℚ × ℚ) (p : NormPoint) (v : ℚ) : ℚ × ℚ :=
  (xToPx p.x plot, yToPx v dom plot.top plot.bottom)

/-- The pixel positions of the visible points with a finite channel value,
in data order. -/
def visibleFinitePix (data : List NormPoint) (val : NormPoint → Option ℚ) (plot : Plot) (dom : ℚ × ℚ) : List (ℚ × ℚ) :=
  data.filterMap (fun p =>
    if p.x < plot.x0 ∨ p.x > plot.x1 then none else (val p).map (toPix plot dom p))

/-- A single connected polyline through the given pixel positions. -/
def polyline : List (ℚ × ℚ) → List PathCmd
  | [] => []
  | q :: qs => PathCmd.moveTo q.1 q.2 :: qs.map (fun z => PathCmd.lineTo z.1 z.2)

/-! ## Hit testing (app.js 319-357) -/

/-- Inversion of the horizontal transform (app.js 339). -/
def invertX (view : Viewport) (plotLeft plotRight cssX : ℚ) : ℚ :=
  view.x0 + (cssX - plotLeft) / (plotRight - plotLeft) * (view.x1 - view.x0)

/-- The `while (lo < hi)` binary-search loop (app.js 341-345), with explicit
fuel; `lowerBoundIdx` supplies enough fuel for the loop to finish. -/
def lbAux (data : List NormPoint) (xVal : ℚ) : ℕ → ℕ → ℕ → ℕ
  | 0, lo, _ => lo
  | fuel + 1, lo, hi =>
    if lo < hi then
      let mid := (lo + hi) / 2
      if (data.getD mid dfltPoint).x < xVal then lbAux data xVal fuel (mid + 1) hi
      else lbAux data xVal fuel lo mid
    else lo

def lowerBoundIdx (data : List NormPoint) (xVal : ℚ) : ℕ :=
  lbAux data xVal data.length 0 (data.length - 1)

/-- `[lo, lo-1, lo+1].filter(i => i >= 0 && i < data.length)` (app.js 346). -/
def hitCandidates (data : List NormPoint) (lo : ℕ) : List ℤ :=
  ([(lo : ℤ), (lo : ℤ) - 1, (lo : ℤ) + 1]).filter
    (fun i => decide (0 ≤ i) && decide (i < (data.length : ℤ)))

/-- One step of the strict-less best-candidate scan (app.js 349-352); the
`Option ℚ` component models `bestDx` initialized to `Infinity`. -/
def bestStep (data : List NormPoint) (xVal : ℚ) (acc : ℤ × Option ℚ) (i : ℤ) : ℤ × Option ℚ :=
  let dx := |(data.getD i.toNat dfltPoint).x - xVal|
  match acc.2 with
  | none => (i, some dx)
  | some bd => if dx < bd then (i, some dx) else acc

def pickBest (data : List NormPoint) (xVal : ℚ) (cands : List ℤ) (acc : ℤ × Option ℚ) : ℤ × Option ℚ :=
  cands.foldl (bestStep data xVal) acc

/-- `hitTest` (app.js 319-357), taking the pixel position already relative to
the canvas (`cssX = mouseX - rect.left`, likewise `cssY`) and the canvas CSS
size; only the hit point of the returned record is modelled.  The `match` on
the candidate list models `const p = data[best]; if (!p) return null`. -/
def hitTest (data : List NormPoint) (view : Viewport) (cssW cssH cssX cssY : ℚ) : Option NormPoint :=
  if data.length = 0 then none
  else
    let plotLeft := padLeft
    let plotRight := cssW - padRight
    let plotTop := padTop + legendH
    let plotBottom := cssH - padBottom
    if cssX < plotLeft ∨ cssX > plotRight ∨ cssY < plotTop ∨ cssY > plotBottom then none
    else
      let xVal := invertX view plotLeft plotRight cssX
      let lo := lowerBoundIdx data xVal
      match hitCandidates data lo with
      | [] => none
      | c :: _ =>
        some (data.getD (pickBest data xVal (hitCandidates data lo) (c, none)).1.toNat dfltPoint)

/-! ## Viewport operations (app.js 388-407, 422-447, 455-477, 500-507) -/

/-- The pan update of the `mousemove` handler (app.js 389-401).  `panStart`
is the viewport recorded at `mousedown`, `dx` the pixel delta from the drag
start and `pxSpan = rect.width - padding.left - padding.right`. -/
def panOp (full : ℚ × ℚ) (panStart : Viewport) (dx pxSpan : ℚ) : Viewport :=
  let span := panStart.x1 - panStart.x0
  let msPerPx := span / pxSpan
  let shift := -dx * msPerPx
  let new0 := clamp (panStart.x0 + shift) full.1 (full.2 - span)
  ⟨new0, new0 + span⟩

/-- `newSpan` of the wheel handler (app.js 434). -/
def zoomNewSpan (full : ℚ × ℚ) (v : Viewport) (factor : ℚ) : ℚ :=
  clamp ((v.x1 - v.x0) * factor) minSpanMs (full.2 - full.1)

/-- `center` of the wheel handler (app.js 436); `frac` is
`(cssX - plotLeft) / (plotRight - plotLeft)` (line 431). -/
def zoomCenter (v : Viewport) (frac : ℚ) : ℚ := v.x0 + (v.x1 - v.x0) * frac

/-- The wheel handler's viewport update (app.js 431-445).  `factor` is
`Math.exp(e.deltaY * 0.0012)`, hence an arbitrary positive number.  The
`new1 = full.2` assignment of line 440 is dead (line 442 overwrites `new1`),
so it is not bound here. -/
def zoomOp (full : ℚ × ℚ) (v : Viewport) (frac factor : ℚ) : Viewport :=
  let ns := zoomNewSpan full v factor
  let c := zoomCenter v frac
  let n0 := c - ns * frac
  let n1 := c + ns * (1 - frac)
  let p0 := if n0 < full.1 then full.1 else n0
  let p1 := if n0 < full.1 then n1 + (full.1 - n0) else n1
  let q0 := if p1 > full.2 then p0 - (p1 - full.2) else p0
  let m0 := clamp q0 full.1 (full.2 - ns)
  ⟨m0, m0 + ns⟩

/-- The `rangeSelect` "6h" / "24h" branch (app.js 461-465). -/
def presetOp (full : ℚ × ℚ) (hours : ℚ) : Viewport :=
  ⟨max full.1 (full.2 - hours * (60 * 60 * 1000)), full.2⟩

/-- `rangeSelect` "all", the reset button, and the initial view after load
(app.js 457-459, 474-475, 504). -/
def resetOp (full : ℚ × ℚ) : Viewport := ⟨full.1, full.2⟩

/-- `xDomainAll = [data[0].x, data[data.length - 1].x]` set by `main` after a
successful load (app.js 503); `main` throws before this point when `data` is
empty. -/
def loadFull (data : List NormPoint) : ℚ × ℚ :=
  ((data.headD dfltPoint).x, (data.getLastD dfltPoint).x)

/-- Viewports reachable from a load with extent `full` by any sequence of the
pan, wheel-zoom, preset-window and reset interactions.  The zoom side
conditions record that the wheel handler returns early unless
`plotLeft ≤ cssX ≤ plotRight` (so `0 ≤ frac ≤ 1`) and that `Math.exp` is
positive; the pan side condition records that the plot pixel width is
positive (canvas CSS width is at least 680, padding totals 128). -/
inductive Reach (full : ℚ × ℚ) : Viewport → Prop where
  | init : Reach full (resetOp full)
  | pan (v : Viewport) (dx pxSpan : ℚ) : 0 < pxSpan → Reach full v →
      Reach full (panOp full v dx pxSpan)
  | zoom (v : Viewport) (frac factor : ℚ) : 0 ≤ frac → frac ≤ 1 → 0 < factor → Reach full v →
      Reach full (zoomOp full v frac factor)
  | preset (v : Viewport) (hours : ℚ) : hours = 6 ∨ hours = 24 → Reach full v →
      Reach full (presetOp full hours)
  | reset (v : Viewport) : Reach full v → Reach full (resetOp full)

/-! ## Nice tick steps (app.js 69-87) -/

/-- The step selection of `niceTicks` (app.js 69-79).  The tick enumeration
loop (lines 81-86) is not modelled: no claim mentions it.  In `ℚ` every value
is finite, so of the degenerate guard only `min === max` remains;
`Math.floor(Math.log10 rawStep)` is `Int.log 10 rawStep`; the fold starts
from `candidates[0]` and scans all candidates with a strict comparison. -/
def niceTicksStep (mn mx targetCount : ℚ) : ℚ :=
  if mn = mx then 1
  else
    let span := |mx - mn|
    let rawStep := span / targetCount
    let pow10 : ℚ := (10 : ℚ) ^ (Int.log 10 rawStep)
    let candidates := ([1, 2, 5, 10] : List ℚ).map (fun c => c * pow10)
    candidates.foldl (fun s c => if |c - rawStep| < |s - rawStep| then c else s) (candidates.headD 0)

/-! ## Ingestion (app.js 30-49, 487-499) -/

inductive Field where
  | num (q : ℚ)
  | str (s : String)
deriving DecidableEq

/-- One CSV cell (app.js 42-44): if `Number(raw)` is finite the number is
kept, otherwise the raw string is kept.  `jsNum` models the host `Number`
conversion restricted to its finite results (`none` = non-finite). -/
def toField (jsNum : String → Option ℚ) (s : String) : Field :=
  match jsNum s with
  | some q => Field.num q
  | none => Field.str s

/-- `parseCSV` (app.js 30-49) after the newline/comma splitting: rows whose
column count differs from the header count are dropped (line 38); each kept
cell becomes a `Field`. -/
def parseCSVrows (jsNum : String → Option ℚ) (headers : List String) (rows : List (List String)) : List (List Field) :=
  (rows.filter (fun cols => decide (cols.length = headers.length))).map
    (fun cols => cols.map (toField jsNum))

/-- The row object of app.js 39-45: headers zipped with the parsed cells. -/
def objOf (headers : List String) (fields : List Field) : List (String × Field) :=
  headers.zip fields

/-- JS property access `row[key]`: a missing key is `undefined`, whose string
interpolation yields invalid date text. -/
def getField (obj : List (String × Field)) (k : String) : Field :=
  match obj.find? (fun kv => kv.1 == k) with
  | some kv => kv.2
  | none => Field.str "undefined"

/-- `Number(r.temp_OUT)` etc. at normalize time (app.js 493-495): a kept
string cell is exactly one whose `Number` was non-finite (see `toField`), so
it maps to `none`. -/
def fieldNum : Field → Option ℚ
  | Field.num q => some q
  | Field.str _ => none

def leX (a b : NormPoint) : Prop := a.x ≤ b.x

instance : DecidableRel leX := fun a b => inferInstanceAs (Decidable (a.x ≤ b.x))

instance : IsTotal NormPoint leX := ⟨fun a b => le_total a.x b.x⟩

instance : IsTrans NormPoint leX := ⟨fun _ _ _ h h' => le_trans h h'⟩

/-- `toDate(row).getTime()` of one parsed row (app.js 489-492), `some`
exactly on finite results. -/
def rowTime (jsDateMs : Field → Field → Field → Field → Field → Field → Option ℚ)
    (headers : List String) (fs : List Field) : Option ℚ :=
  jsDateMs (getField (objOf headers fs) "year") (getField (objOf headers fs) "month")
    (getField (objOf headers fs) "date") (getField (objOf headers fs) "hour")
    (getField (objOf headers fs) "min") (getField (objOf headers fs) "sec")

/-- The normalized point built from a parsed row and its finite timestamp
(app.js 490-496). -/
def buildPoint (headers : List String) (fs : List Field) (x : ℚ) : NormPoint :=
  ⟨x, fieldNum (getField (objOf headers fs) "temp_OUT"),
    fieldNum (getField (objOf headers fs) "moist_lv"),
    fieldNum (getField (objOf headers fs) "light")⟩

/-- The normalize / filter / sort pipeline of `main` (app.js 487-499).
`jsDateMs` models `toDate(row).getTime()` with `some` exactly on finite
results; `.map` followed by `.filter(p => Number.isFinite(p.x))` is fused
into `filterMap`; `Array.prototype.sort` with the ascending numeric
comparator is modelled by insertion sort (the claims depend only on the
result being sorted ascending). -/
def normRows (jsDateMs : Field → Field → Field → Field → Field → Field → Option ℚ) (headers : List String) (rows : List (List Field)) : List NormPoint :=
  List.insertionSort leX (rows.filterMap (fun fs =>
    match rowTime jsDateMs headers fs with
    | some x => some (buildPoint headers fs x)
    | none => none))

/-! ## Spec-side comparison definition and concrete fixtures -/

/-- Modelled from the spec (section 4.5): the nearest point the spec promises,
"whichever has the minimum absolute time distance to the target … first such
point in sort order wins ties".  Used only for comparison with `hitTest`. -/
def firstNearest (data : List NormPoint) (xVal : ℚ) : Option NormPoint :=
  data.foldl (fun acc p =>
    match acc with
    | none => some p
    | some q => if |p.x - xVal| < |q.x - xVal| then some p else acc) none

def dataOne : List NormPoint := [⟨0, some 1, some 1, some 1⟩]

def dataTwoMin : List NormPoint := [⟨0, some 1, some 1, some 1⟩, ⟨60000, some 1, some 1, some 1⟩]

def dataGap : List NormPoint :=
  [⟨0, some 0, some 1, some 1⟩, ⟨1, none, some 1, some 1⟩, ⟨2, some 0, some 1, some 1⟩]

def dataTie : List NormPoint := [⟨0, some 1, some 1, some 1⟩, ⟨10, some 1, some 1, some 1⟩]

def dataFive : List NormPoint :=
  [⟨0, some 1, some 1, some 1⟩, ⟨10, some 1, some 1, some 1⟩, ⟨20, some 1, some 1, some 1⟩,
   ⟨30, some 1, some 1, some 1⟩, ⟨40, some 1, some 1, some 1⟩]

/-- A concrete instance of the host `Number` conversion covering the strings
of the test row: the integer literals parse, "abc" does not. -/
def jsNumT : String → Option ℚ := fun s =>
  if s = "2026" then some 2026 else if s = "2" then some 2 else if s = "8" then some 8
  else if s = "0" then some 0 else if s = "40" then some 40 else if s = "120" then some 120
  else none

/-- A concrete instance of `toDate(...).getTime()`: finite exactly when all
six time components are numbers. -/
def jsDateT : Field → Field → Field → Field → Field → Field → Option ℚ
  | Field.num y, Field.num mo, Field.num d, Field.num hh, Field.num mi, Field.num ss =>
    some (((((y * 12 + mo) * 31 + d) * 24 + hh) * 60 + mi) * 60 + ss)
  | _, _, _, _, _, _ => none

def headersT : List String :=
  ["year", "month", "date", "hour", "min", "sec", "temp_OUT", "moist_lv", "light"]

def rowBadTemp : List String := ["2026", "2", "8", "0", "0", "0", "abc", "40", "120"]

/-- Two points a full day apart (extent well above the minimum span). -/
def dataDay : List NormPoint := [⟨0, some 1, some 1, some 1⟩, ⟨86400000, some 1, some 1, some 1⟩]

/-- Absolute time distance of the point at (JS) index `i` to the target. -/
def distTo (data : List NormPoint) (xVal : ℚ) (i : ℤ) : ℚ :=
  |(data.getD i.toNat dfltPoint).x - xVal|

/-! # Theorems -/

/-! ## Basic facts about `clamp` -/

theorem clamp_lower (v a b : ℚ) : a ≤ clamp v a b := le_max_left _ _

theorem clamp_upper (v a b : ℚ) (h : a ≤ b) : clamp v a b ≤ b :=
  max_le h (min_le_left _ _)

theorem clamp_eq_self (v a b : ℚ) (h1 : a ≤ v) (h2 : v ≤ b) : clamp v a b = v := by
  unfold clamp
  rw [min_eq_right h2, max_eq_right h1]

theorem minSpanMs_pos : 0 < minSpanMs := by norm_num [minSpanMs]

/-! ## Pan -/

theorem panOp_span (full : ℚ × ℚ) (ps : Viewport) (dx pxSpan : ℚ) :
    (panOp full ps dx pxSpan).x1 - (panOp full ps dx pxSpan).x0 = ps.x1 - ps.x0 := by
  simp only [panOp]
  ring

theorem panOp_bounds (full : ℚ × ℚ) (ps : Viewport) (dx pxSpan : ℚ)
    (h0 : full.1 ≤ ps.x0) (h1 : ps.x1 ≤ full.2) :
    full.1 ≤ (panOp full ps dx pxSpan).x0 ∧ (panOp full ps dx pxSpan).x1 ≤ full.2 := by
  have hspan : ps.x1 - ps.x0 ≤ full.2 - full.1 := by linarith
  have hcu := clamp_upper (ps.x0 + -dx * ((ps.x1 - ps.x0) / pxSpan)) full.1
    (full.2 - (ps.x1 - ps.x0)) (by linarith)
  have hcl := clamp_lower (ps.x0 + -dx * ((ps.x1 - ps.x0) / pxSpan)) full.1
    (full.2 - (ps.x1 - ps.x0))
  constructor
  · simpa only [panOp] using hcl
  · simp only [panOp]
    linarith

/-! ## Zoom -/

theorem zoomNewSpan_ge_min (full : ℚ × ℚ) (v : Viewport) (factor : ℚ) :
    minSpanMs ≤ zoomNewSpan full v factor := clamp_lower _ _ _

theorem zoomNewSpan_pos (full : ℚ × ℚ) (v : Viewport) (factor : ℚ) :
    0 < zoomNewSpan full v factor :=
  lt_of_lt_of_le minSpanMs_pos (zoomNewSpan_ge_min full v factor)

theorem zoomNewSpan_le_extent (full : ℚ × ℚ) (v : Viewport) (factor : ℚ)
    (hE : minSpanMs ≤ full.2 - full.1) :
    zoomNewSpan full v factor ≤ full.2 - full.1 := clamp_upper _ _ _ hE

theorem zoomOp_span (full : ℚ × ℚ) (v : Viewport) (frac factor : ℚ) :
    (zoomOp full v frac factor).x1 - (zoomOp full v frac factor).x0 =
      zoomNewSpan full v factor := by
  simp only [zoomOp]
  ring

/-- `zoomOp` always ends with the final clamp: its result is
`⟨clamp q0 a (b - ns), clamp q0 a (b - ns) + ns⟩` for some `q0`. -/
theorem zoomOp_shape (full : ℚ × ℚ) (v : Viewport) (frac factor : ℚ) :
    ∃ q0 : ℚ, zoomOp full v frac factor =
      ⟨clamp q0 full.1 (full.2 - zoomNewSpan full v factor),
        clamp q0 full.1 (full.2 - zoomNewSpan full v factor) + zoomNewSpan full v factor⟩ :=
  ⟨_, rfl⟩

theorem zoomOp_bounds (full : ℚ × ℚ) (v : Viewport) (frac factor : ℚ)
    (hE : minSpanMs ≤ full.2 - full.1) :
    full.1 ≤ (zoomOp full v frac factor).x0 ∧ (zoomOp full v frac factor).x1 ≤ full.2 := by
  have hns := zoomNewSpan_le_extent full v factor hE
  obtain ⟨q0, hq⟩ := zoomOp_shape full v frac factor
  rw [hq]
  dsimp only
  have hcl := clamp_lower q0 full.1 (full.2 - zoomNewSpan full v factor)
  have hcu := clamp_upper q0 full.1 (full.2 - zoomNewSpan full v factor) (by linarith)
  exact ⟨hcl, by linarith⟩

/-- When neither boundary shift fires, the final clamp is the identity and the
zoomed window is the anchored one. -/
theorem zoomOp_noShift (full : ℚ × ℚ) (v : Viewport) (frac factor : ℚ)
    (h0 : full.1 ≤ zoomCenter v frac - zoomNewSpan full v factor * frac)
    (h1 : zoomCenter v frac + zoomNewSpan full v factor * (1 - frac) ≤ full.2) :
    zoomOp full v frac factor =
      ⟨zoomCenter v frac - zoomNewSpan full v factor * frac,
        zoomCenter v frac - zoomNewSpan full v factor * frac + zoomNewSpan full v factor⟩ := by
  have hns : zoomCenter v frac - zoomNewSpan full v factor * frac ≤
      full.2 - zoomNewSpan full v factor := by linarith [h1]
  simp only [zoomOp]
  rw [if_neg (not_lt.mpr h0), if_neg (not_lt.mpr h0), if_neg (not_lt.mpr h1)]
  rw [clamp_eq_self _ _ _ h0 hns]

/-- Claim C5: for every pan delta, panning shifts the drag-start window and
re-clamps it so the result lies within `[fullStart, fullEnd]` and its span
equals exactly the span recorded at drag start (clamping never shrinks it). -/
theorem pan_preserves_span_within_extent (full : ℚ × ℚ) (ps : Viewport) (dx pxSpan : ℚ)
    (h0 : full.1 ≤ ps.x0) (h1 : ps.x1 ≤ full.2) :
    full.1 ≤ (panOp full ps dx pxSpan).x0 ∧ (panOp full ps dx pxSpan).x1 ≤ full.2 ∧
      (panOp full ps dx pxSpan).x1 - (panOp full ps dx pxSpan).x0 = ps.x1 - ps.x0 :=
  ⟨(panOp_bounds full ps dx pxSpan h0 h1).1, (panOp_bounds full ps dx pxSpan h0 h1).2,
    panOp_span full ps dx pxSpan⟩

theorem pan_preserves_span_witness :
    (0 : ℚ) ≤ 100 ∧ (500 : ℚ) ≤ 1000000 ∧
      ((0 : ℚ) ≤ (panOp (0, 1000000) ⟨100, 500⟩ 3 552).x0 ∧
        (panOp (0, 1000000) ⟨100, 500⟩ 3 552).x1 ≤ 1000000 ∧
        (panOp (0, 1000000) ⟨100, 500⟩ 3 552).x1 - (panOp (0, 1000000) ⟨100, 500⟩ 3 552).x0 =
          (500 : ℚ) - 100) :=
  ⟨by norm_num, by norm_num,
    pan_preserves_span_within_extent (0, 1000000) ⟨100, 500⟩ 3 552 (by norm_num) (by norm_num)⟩

/-- Claim C4: wheel-zoom scales the current span by the factor and clamps the
new span to `[minSpan, fullEnd - fullStart]`; whenever the resulting window
needs no boundary shifting, the anchor keeps the same relative position
`(anchorMs - visibleStart) / span` before and after the zoom. -/
theorem zoom_span_clamped_anchor_preserved (full : ℚ × ℚ) (v : Viewport) (frac factor : ℚ) :
    ((zoomOp full v frac factor).x1 - (zoomOp full v frac factor).x0 =
        clamp ((v.x1 - v.x0) * factor) minSpanMs (full.2 - full.1)) ∧
      (minSpanMs ≤ full.2 - full.1 →
        minSpanMs ≤ (zoomOp full v frac factor).x1 - (zoomOp full v frac factor).x0 ∧
          (zoomOp full v frac factor).x1 - (zoomOp full v frac factor).x0 ≤ full.2 - full.1) ∧
      (v.x0 < v.x1 →
        full.1 ≤ zoomCenter v frac - zoomNewSpan full v factor * frac →
        zoomCenter v frac + zoomNewSpan full v factor * (1 - frac) ≤ full.2 →
        (zoomCenter v frac - v.x0) / (v.x1 - v.x0) = frac ∧
          (zoomCenter v frac - (zoomOp full v frac factor).x0) /
              ((zoomOp full v frac factor).x1 - (zoomOp full v frac factor).x0) = frac) := by
  refine ⟨zoomOp_span full v frac factor, fun hE => ?_, fun hv h0 h1 => ?_⟩
  · rw [zoomOp_span]
    exact ⟨zoomNewSpan_ge_min full v factor, zoomNewSpan_le_extent full v factor hE⟩
  · have hvne : v.x1 - v.x0 ≠ 0 := sub_ne_zero.mpr (ne_of_gt hv)
    have hnsne : zoomNewSpan full v factor ≠ 0 := (zoomNewSpan_pos full v factor).ne'
    constructor
    · unfold zoomCenter
      field_simp
    · rw [zoomOp_noShift full v frac factor h0 h1]
      dsimp only
      field_simp

theorem zoom_span_anchor_witness :
    ((30000000 : ℚ) < 50000000) ∧ minSpanMs ≤ (100000000 : ℚ) - 0 ∧
      ((0 : ℚ) ≤ zoomCenter ⟨30000000, 50000000⟩ (1 / 2) -
          zoomNewSpan (0, 100000000) ⟨30000000, 50000000⟩ 2 * (1 / 2)) ∧
      (zoomCenter ⟨30000000, 50000000⟩ (1 / 2) +
          zoomNewSpan (0, 100000000) ⟨30000000, 50000000⟩ 2 * (1 - 1 / 2) ≤ 100000000) ∧
      (zoomCenter ⟨30000000, 50000000⟩ (1 / 2) -
            (zoomOp (0, 100000000) ⟨30000000, 50000000⟩ (1 / 2) 2).x0) /
          ((zoomOp (0, 100000000) ⟨30000000, 50000000⟩ (1 / 2) 2).x1 -
            (zoomOp (0, 100000000) ⟨30000000, 50000000⟩ (1 / 2) 2).x0) = 1 / 2 :=
  ⟨by norm_num, by norm_num [minSpanMs],
    by norm_num [zoomCenter, zoomNewSpan, clamp, minSpanMs],
    by norm_num [zoomCenter, zoomNewSpan, clamp, minSpanMs],
    ((zoom_span_clamped_anchor_preserved (0, 100000000) ⟨30000000, 50000000⟩ (1 / 2) 2).2.2
        (by norm_num) (by norm_num [zoomCenter, zoomNewSpan, clamp, minSpanMs])
        (by norm_num [zoomCenter, zoomNewSpan, clamp, minSpanMs])).2⟩

/-- Claim C7: when neither the span clamp nor the boundary shifts engage in
either step, zooming by `factor` and then by `1 / factor` at the same anchor
restores the original viewport exactly — hence the span is restored within
any tolerance (in particular 1e-6 relative error) and the anchor's relative
position is preserved. -/
theorem zoom_inverse_restores_viewport (full : ℚ × ℚ) (v : Viewport) (frac factor : ℚ)
    (hf : 0 < factor) (hv : v.x0 < v.x1)
    (hc1 : minSpanMs ≤ (v.x1 - v.x0) * factor) (hc2 : (v.x1 - v.x0) * factor ≤ full.2 - full.1)
    (hc3 : minSpanMs ≤ v.x1 - v.x0) (hc4 : v.x1 - v.x0 ≤ full.2 - full.1)
    (hs1 : full.1 ≤ zoomCenter v frac - (v.x1 - v.x0) * factor * frac)
    (hs2 : zoomCenter v frac + (v.x1 - v.x0) * factor * (1 - frac) ≤ full.2)
    (hb1 : full.1 ≤ v.x0) (hb2 : v.x1 ≤ full.2) :
    zoomOp full (zoomOp full v frac factor) frac (1 / factor) = v ∧
      |(zoomOp full (zoomOp full v frac factor) frac (1 / factor)).x1 -
          (zoomOp full (zoomOp full v frac factor) frac (1 / factor)).x0 - (v.x1 - v.x0)| ≤
        (v.x1 - v.x0) / 1000000 := by
  have hns1 : zoomNewSpan full v factor = (v.x1 - v.x0) * factor := clamp_eq_self _ _ _ hc1 hc2
  have hz1 : zoomOp full v frac factor =
      ⟨zoomCenter v frac - (v.x1 - v.x0) * factor * frac,
        zoomCenter v frac - (v.x1 - v.x0) * factor * frac + (v.x1 - v.x0) * factor⟩ := by
    rw [zoomOp_noShift full v frac factor (by rw [hns1]; exact hs1) (by rw [hns1]; exact hs2),
      hns1]
  have hz1span : (zoomOp full v frac factor).x1 - (zoomOp full v frac factor).x0 =
      (v.x1 - v.x0) * factor := by
    rw [hz1]
    dsimp only
    ring
  have hns2 : zoomNewSpan full (zoomOp full v frac factor) (1 / factor) = v.x1 - v.x0 := by
    unfold zoomNewSpan
    rw [hz1span, show (v.x1 - v.x0) * factor * (1 / factor) = v.x1 - v.x0 by
      field_simp]
    exact clamp_eq_self _ _ _ hc3 hc4
  have hcenter2 : zoomCenter (zoomOp full v frac factor) frac = zoomCenter v frac := by
    unfold zoomCenter
    rw [hz1span, hz1]
    dsimp only
    unfold zoomCenter
    ring
  have hx0 : zoomCenter v frac - (v.x1 - v.x0) * frac = v.x0 := by
    unfold zoomCenter
    ring
  have hx1 : zoomCenter v frac + (v.x1 - v.x0) * (1 - frac) = v.x1 := by
    unfold zoomCenter
    ring
  have hfinal := zoomOp_noShift full (zoomOp full v frac factor) frac (1 / factor)
    (by rw [hns2, hcenter2, hx0]; exact hb1)
    (by rw [hns2, hcenter2, hx1]; exact hb2)
  rw [hns2, hcenter2, hx0] at hfinal
  have heq : zoomOp full (zoomOp full v frac factor) frac (1 / factor) = v := by
    rw [hfinal]
    cases v with
    | mk a b =>
      dsimp only
      congr 1
      ring
  refine ⟨heq, ?_⟩
  rw [heq]
  rw [sub_self, abs_zero]
  exact div_nonneg (le_of_lt (sub_pos.mpr hv)) (by norm_num)

theorem zoom_inverse_witness :
    (0 : ℚ) < 2 ∧ ((30000000 : ℚ) < 50000000) ∧
      minSpanMs ≤ ((50000000 : ℚ) - 30000000) * 2 ∧
      ((50000000 : ℚ) - 30000000) * 2 ≤ (100000000 : ℚ) - 0 ∧
      minSpanMs ≤ (50000000 : ℚ) - 30000000 ∧
      (50000000 : ℚ) - 30000000 ≤ (100000000 : ℚ) - 0 ∧
      ((0 : ℚ) ≤ zoomCenter ⟨30000000, 50000000⟩ (1 / 2) -
          ((50000000 : ℚ) - 30000000) * 2 * (1 / 2)) ∧
      (zoomCenter ⟨30000000, 50000000⟩ (1 / 2) +
          ((50000000 : ℚ) - 30000000) * 2 * (1 - 1 / 2) ≤ 100000000) ∧
      ((0 : ℚ) ≤ 30000000) ∧ ((50000000 : ℚ) ≤ 100000000) ∧
      zoomOp (0, 100000000) (zoomOp (0, 100000000) ⟨30000000, 50000000⟩ (1 / 2) 2) (1 / 2)
          (1 / 2) = ⟨30000000, 50000000⟩ :=
  ⟨by norm_num, by norm_num, by norm_num [minSpanMs], by norm_num,
    by norm_num [minSpanMs], by norm_num, by norm_num [zoomCenter],
    by norm_num [zoomCenter], by norm_num, by norm_num,
    by
      have h := (zoom_inverse_restores_viewport (0, 100000000) ⟨30000000, 50000000⟩ (1 / 2) 2
        (by norm_num) (by norm_num) (by norm_num [minSpanMs]) (by norm_num)
        (by norm_num [minSpanMs]) (by norm_num) (by norm_num [zoomCenter])
        (by norm_num [zoomCenter]) (by norm_num) (by norm_num)).1
      rw [show ((1 : ℚ) / 2) = 1 / (2 : ℚ) from rfl] at h
      exact h⟩

/-! ## Preset window and the reachable-viewport invariants -/

theorem presetOp_span (full : ℚ × ℚ) (hours : ℚ) :
    (presetOp full hours).x1 - (presetOp full hours).x0 =
      min (full.2 - full.1) (hours * (60 * 60 * 1000)) := by
  simp only [presetOp]
  rcases le_total full.1 (full.2 - hours * (60 * 60 * 1000)) with h | h
  · rw [max_eq_right h, min_eq_right (by linarith)]
    ring
  · rw [max_eq_left h, min_eq_left (by linarith)]

/-- Every reachable viewport of an extent at least `minSpan` wide satisfies
the full invariant. -/
theorem reach_invariant (full : ℚ × ℚ) (hE : minSpanMs ≤ full.2 - full.1) :
    ∀ v, Reach full v →
      full.1 ≤ v.x0 ∧ v.x0 < v.x1 ∧ v.x1 ≤ full.2 ∧ minSpanMs ≤ v.x1 - v.x0 := by
  intro v h
  induction h with
  | init =>
    exact ⟨le_refl _, show full.1 < full.2 by linarith [minSpanMs_pos], le_refl _, hE⟩
  | pan v' dx pxSpan hpx hr ih =>
    have hb := panOp_bounds full v' dx pxSpan ih.1 ih.2.2.1
    have hs := panOp_span full v' dx pxSpan
    exact ⟨hb.1, by linarith [ih.2.1], hb.2, by linarith [ih.2.2.2]⟩
  | zoom v' frac factor h0 h1 hf hr ih =>
    have hb := zoomOp_bounds full v' frac factor hE
    have hs := zoomOp_span full v' frac factor
    have hm := zoomNewSpan_ge_min full v' factor
    exact ⟨hb.1, by linarith [minSpanMs_pos], hb.2, by linarith⟩
  | preset v' hours hh hr ih =>
    have hsp := presetOp_span full hours
    have hmin : minSpanMs ≤ min (full.2 - full.1) (hours * (60 * 60 * 1000)) := by
      rcases hh with h | h <;> subst h <;> exact le_min hE (by norm_num [minSpanMs])
    refine ⟨le_max_left _ _, by linarith [minSpanMs_pos], ?_, by linarith⟩
    have hx0 : full.1 ≤ (presetOp full hours).x0 := le_max_left _ _
    show (presetOp full hours).x1 ≤ full.2
    exact le_refl _
  | reset v' hr ih =>
    exact ⟨le_refl _, show full.1 < full.2 by linarith [minSpanMs_pos], le_refl _, hE⟩

/-- Every reachable viewport of a non-degenerate extent has positive span. -/
theorem reach_span_pos (full : ℚ × ℚ) (hE : 0 < full.2 - full.1) :
    ∀ v, Reach full v → 0 < v.x1 - v.x0 := by
  intro v h
  induction h with
  | init => exact hE
  | pan v' dx pxSpan hpx hr ih =>
    rw [panOp_span]
    exact ih
  | zoom v' frac factor h0 h1 hf hr ih =>
    rw [zoomOp_span]
    exact zoomNewSpan_pos full v' factor
  | preset v' hours hh hr ih =>
    rw [presetOp_span]
    rcases hh with h | h <;> subst h <;> exact lt_min hE (by norm_num)
  | reset v' hr => exact hE

/-- Claim C1 (amended): after a successful load of a non-empty sequence,
`fullStart`/`fullEnd` are the first/last timestamps; and provided the full
extent is at least `minSpan` (5 minutes in ms) wide, every viewport reachable
by pan, wheel-zoom, preset-window and reset operations satisfies
`fullStart ≤ visibleStart < visibleEnd ≤ fullEnd` and
`visibleEnd - visibleStart ≥ minSpan`.  (The original claim, without the
extent hypothesis, fails: see the counterexample.) -/
theorem load_extent_viewport_invariant (data : List NormPoint) (h : data ≠ []) (v : Viewport) :
    (loadFull data).1 = (data.head h).x ∧ (loadFull data).2 = (data.getLast h).x ∧
      (minSpanMs ≤ (loadFull data).2 - (loadFull data).1 → Reach (loadFull data) v →
        (loadFull data).1 ≤ v.x0 ∧ v.x0 < v.x1 ∧ v.x1 ≤ (loadFull data).2 ∧
          minSpanMs ≤ v.x1 - v.x0) := by
  refine ⟨?_, ?_, fun hE hr => reach_invariant (loadFull data) hE v hr⟩
  · show (data.headD dfltPoint).x = (data.head h).x
    rw [List.headD_eq_head?, List.head?_eq_head h]
    rfl
  · show (data.getLastD dfltPoint).x = (data.getLast h).x
    rw [List.getLastD_eq_getLast?, List.getLast?_eq_getLast_of_ne_nil h]
    rfl

theorem load_extent_viewport_witness :
    dataDay ≠ [] ∧ minSpanMs ≤ (loadFull dataDay).2 - (loadFull dataDay).1 ∧
      Reach (loadFull dataDay) ⟨0, 86400000⟩ ∧
      ((loadFull dataDay).1 ≤ (0 : ℚ) ∧ (0 : ℚ) < 86400000 ∧
        (86400000 : ℚ) ≤ (loadFull dataDay).2 ∧ minSpanMs ≤ (86400000 : ℚ) - 0) := by
  have hne : dataDay ≠ [] := by simp [dataDay]
  have hE : minSpanMs ≤ (loadFull dataDay).2 - (loadFull dataDay).1 := by
    norm_num [minSpanMs, loadFull, dataDay]
  have hreach : Reach (loadFull dataDay) ⟨0, 86400000⟩ := Reach.init
  exact ⟨hne, hE, hreach,
    (load_extent_viewport_invariant dataDay hne ⟨0, 86400000⟩).2.2 hE hreach⟩

/-- Counterexample to Claim C1 as stated: for a sorted non-empty sequence
whose extent is one minute (less than `minSpan`), the viewport right after
load — the empty sequence of operations — already violates
`visibleEnd - visibleStart ≥ minSpan`. -/
theorem viewport_minSpan_fails_small_extent :
    dataTwoMin ≠ [] ∧ List.Sorted leX dataTwoMin ∧ loadFull dataTwoMin = (0, 60000) ∧
      Reach (loadFull dataTwoMin) ⟨0, 60000⟩ ∧
      ¬ minSpanMs ≤ (⟨0, 60000⟩ : Viewport).x1 - (⟨0, 60000⟩ : Viewport).x0 := by
  refine ⟨by simp [dataTwoMin], ?_, rfl, Reach.init, ?_⟩
  · constructor
    · intro b hb
      simp only [dataTwoMin, List.mem_singleton] at hb
      subst hb
      show (0 : ℚ) ≤ 60000
      norm_num
    · exact List.sorted_singleton _
  · show ¬ minSpanMs ≤ (60000 : ℚ) - 0
    norm_num [minSpanMs]

/-! ## Domain span positivity -/

theorem domainStep_le (x0 x1 : ℚ) (val : NormPoint → Option ℚ) (acc : Option (ℚ × ℚ))
    (p : NormPoint) (h : ∀ mn mx : ℚ, acc = some (mn, mx) → mn ≤ mx) :
    ∀ mn mx : ℚ, domainStep x0 x1 val acc p = some (mn, mx) → mn ≤ mx := by
  intro mn mx heq
  unfold domainStep at heq
  split at heq
  · exact h mn mx heq
  · cases hv : val p with
    | none =>
      rw [hv] at heq
      exact h mn mx heq
    | some v =>
      rw [hv] at heq
      cases hacc : acc with
      | none =>
        rw [hacc] at heq
        simp only [Option.some.injEq, Prod.mk.injEq] at heq
        rw [← heq.1, ← heq.2]
      | some mm =>
        rw [hacc] at heq
        obtain ⟨amn, amx⟩ := mm
        simp only [Option.some.injEq, Prod.mk.injEq] at heq
        have hle := h amn amx (by rw [hacc])
        rw [← heq.1, ← heq.2]
        exact le_trans (le_trans (min_le_left amn v) hle) (le_max_left amx v)

theorem domainScan_le (val : NormPoint → Option ℚ) (x0 x1 : ℚ) :
    ∀ (data : List NormPoint) (acc : Option (ℚ × ℚ)),
      (∀ mn mx : ℚ, acc = some (mn, mx) → mn ≤ mx) →
      ∀ mn mx : ℚ, data.foldl (domainStep x0 x1 val) acc = some (mn, mx) → mn ≤ mx := by
  intro data
  induction data with
  | nil => intro acc h mn mx heq; exact h mn mx heq
  | cons p ps ih =>
    intro acc h mn mx heq
    exact ih (domainStep x0 x1 val acc p) (domainStep_le x0 x1 val acc p h) mn mx heq

/-- The per-axis domain always has strictly positive span. -/
theorem domainForKey_span_pos (val : NormPoint → Option ℚ) (x0 x1 : ℚ)
    (data : List NormPoint) :
    0 < (domainForKey val x0 x1 data).2 - (domainForKey val x0 x1 data).1 := by
  unfold domainForKey
  cases hscan : domainScan val x0 x1 data with
  | none => norm_num
  | some mm =>
    obtain ⟨mn, mx⟩ := mm
    have hle : mn ≤ mx := domainScan_le val x0 x1 data none (by intro _ _ h; cases h) mn mx hscan
    dsimp only
    by_cases heq : mn = mx
    · rw [if_pos heq]
      dsimp only
      linarith
    · rw [if_neg heq]
      dsimp only
      have hlt : mn < mx := lt_of_le_of_ne hle heq
      nlinarith

/-- Claim C8 (amended): `domainForKey` always returns a domain with strictly
positive span, so `yToPx` never divides by zero; and provided the full extent
is non-degenerate (`fullStart < fullEnd`), every reachable viewport has
non-zero `visibleEnd - visibleStart`, so `xToPx` never divides by zero.  (The
original claim, for every non-empty dataset, fails on a single-point load:
see the counterexample.) -/
theorem domain_span_pos_time_divisor_nonzero :
    (∀ (val : NormPoint → Option ℚ) (x0 x1 : ℚ) (data : List NormPoint),
        0 < (domainForKey val x0 x1 data).2 - (domainForKey val x0 x1 data).1) ∧
      ∀ (full : ℚ × ℚ) (v : Viewport), 0 < full.2 - full.1 → Reach full v →
        v.x1 - v.x0 ≠ 0 :=
  ⟨domainForKey_span_pos, fun full v hE hr => (reach_span_pos full hE v hr).ne'⟩

theorem domain_span_time_divisor_witness :
    (0 : ℚ) < (86400000 : ℚ) - 0 ∧ Reach (0, 86400000) ⟨0, 86400000⟩ ∧
      (⟨0, 86400000⟩ : Viewport).x1 - (⟨0, 86400000⟩ : Viewport).x0 ≠ 0 :=
  ⟨by norm_num, Reach.init,
    domain_span_pos_time_divisor_nonzero.2 (0, 86400000) ⟨0, 86400000⟩ (by norm_num) Reach.init⟩

/-- Counterexample to Claim C8 as stated: loading a non-empty dataset with a
single point gives the reachable initial viewport `⟨x, x⟩`, whose
`visibleEnd - visibleStart` — the divisor of `xToPx` — is zero. -/
theorem time_divisor_zero_single_point :
    dataOne ≠ [] ∧ loadFull dataOne = (0, 0) ∧ Reach (loadFull dataOne) ⟨0, 0⟩ ∧
      (⟨0, 0⟩ : Viewport).x1 - (⟨0, 0⟩ : Viewport).x0 = 0 := by
  refine ⟨by simp [dataOne], rfl, Reach.init, ?_⟩
  show (0 : ℚ) - 0 = 0
  norm_num

/-! ## Series drawing: the polyline shape -/

theorem visiblePass_true_iff (x0 x1 : ℚ) (p : NormPoint) :
    visiblePass x0 x1 p = true ↔ ¬(p.x < x0 ∨ p.x > x1) := by
  simp [visiblePass, not_or]

theorem visiblePass_false_iff (x0 x1 : ℚ) (p : NormPoint) :
    visiblePass x0 x1 p = false ↔ (p.x < x0 ∨ p.x > x1) := by
  rw [Bool.eq_false_iff, Ne, visiblePass_true_iff]
  exact not_not

theorem drawSeriesGo_true_eq (val : NormPoint → Option ℚ) (plot : Plot) (dom : ℚ × ℚ) :
    ∀ data, drawSeriesGo val plot dom data true =
      (visibleFinitePix data val plot dom).map (fun z => PathCmd.lineTo z.1 z.2) := by
  intro data
  induction data with
  | nil => rfl
  | cons p ps ih =>
    simp only [drawSeriesGo, visibleFinitePix, List.filterMap_cons] at ih ⊢
    by_cases hv : p.x < plot.x0 ∨ p.x > plot.x1
    · rw [if_pos hv, if_pos hv]
      exact ih
    · rw [if_neg hv, if_neg hv]
      cases hval : val p with
      | none =>
        simpa using ih
      | some w =>
        simp only [Option.map_some', if_pos trivial, List.map_cons, toPix]
        exact congrArg _ ih

theorem drawSeriesGo_false_eq (val : NormPoint → Option ℚ) (plot : Plot) (dom : ℚ × ℚ) :
    ∀ data, drawSeriesGo val plot dom data false =
      polyline (visibleFinitePix data val plot dom) := by
  intro data
  induction data with
  | nil => rfl
  | cons p ps ih =>
    simp only [drawSeriesGo, visibleFinitePix, List.filterMap_cons] at ih ⊢
    by_cases hv : p.x < plot.x0 ∨ p.x > plot.x1
    · rw [if_pos hv, if_pos hv]
      exact ih
    · rw [if_neg hv, if_neg hv]
      cases hval : val p with
      | none =>
        simpa using ih
      | some w =>
        simp only [Option.map_some', polyline, Bool.false_eq_true, if_false, toPix]
        have := drawSeriesGo_true_eq val plot dom ps
        simp only [visibleFinitePix] at this
        rw [this]

/-- Claim C2 (amended): a non-finite channel value is skipped WITHOUT ending
the current polyline segment — each series is emitted as one single connected
polyline through all visible finite points, so the finite points on either
side of a non-finite value ARE joined by a line.  (The claim as stated, that
the polyline breaks at each non-finite value, is refuted by the
counterexample: the `started` flag is never reset.) -/
theorem drawSeries_single_polyline (data : List NormPoint) (val : NormPoint → Option ℚ)
    (plot : Plot) (dom : ℚ × ℚ) :
    drawSeriesPath data val plot dom = polyline (visibleFinitePix data val plot dom) :=
  drawSeriesGo_false_eq val plot dom data

/-- Counterexample to Claim C2 as stated: with three visible points whose
middle `temp_OUT` value is non-finite, the emitted path is a `moveTo` at the
first point's pixel followed directly by a `lineTo` at the third point's
pixel — the two finite neighbours of the non-finite value are joined. -/
theorem drawSeries_joins_across_nonfinite :
    (dataGap.getD 1 dfltPoint).temp_OUT = none ∧
      visiblePass 0 10 (dataGap.getD 1 dfltPoint) = true ∧
      drawSeriesPath dataGap NormPoint.temp_OUT (mkPlot 680 520 ⟨0, 10⟩)
          (domainForKey NormPoint.temp_OUT 0 10 dataGap) =
        [PathCmd.moveTo 64 258, PathCmd.lineTo (872 / 5) 258] ∧
      xToPx (dataGap.getD 0 dfltPoint).x (mkPlot 680 520 ⟨0, 10⟩) = 64 ∧
      xToPx (dataGap.getD 2 dfltPoint).x (mkPlot 680 520 ⟨0, 10⟩) = 872 / 5 := by
  refine ⟨rfl, by decide, ?_, ?_, ?_⟩
  · norm_num [drawSeriesPath, drawSeriesGo, dataGap, mkPlot, domainForKey, domainScan,
      domainStep, xToPx, yToPx, padLeft, padRight, padTop, padBottom, legendH, List.foldl]
  · norm_num [xToPx, mkPlot, dataGap, padLeft, padRight, padTop, padBottom, legendH]
  · norm_num [xToPx, mkPlot, dataGap, padLeft, padRight, padTop, padBottom, legendH]

theorem drawSeries_single_polyline_witness :
    drawSeriesPath dataGap NormPoint.temp_OUT (mkPlot 680 520 ⟨0, 10⟩)
        (domainForKey NormPoint.temp_OUT 0 10 dataGap) =
      polyline (visibleFinitePix dataGap NormPoint.temp_OUT (mkPlot 680 520 ⟨0, 10⟩)
        (domainForKey NormPoint.temp_OUT 0 10 dataGap)) :=
  drawSeries_single_polyline dataGap NormPoint.temp_OUT (mkPlot 680 520 ⟨0, 10⟩)
    (domainForKey NormPoint.temp_OUT 0 10 dataGap)

/-! ## Boundary-inclusive visibility -/

theorem domainScan_eq_filtered (val : NormPoint → Option ℚ) (x0 x1 : ℚ) :
    ∀ (data : List NormPoint) (acc : Option (ℚ × ℚ)),
      data.foldl (domainStep x0 x1 val) acc =
        (data.filter (visiblePass x0 x1)).foldl (domainStepAll val) acc := by
  intro data
  induction data with
  | nil => intro acc; rfl
  | cons p ps ih =>
    intro acc
    by_cases hv : p.x < x0 ∨ p.x > x1
    · have hpass : visiblePass x0 x1 p = false := (visiblePass_false_iff x0 x1 p).mpr hv
      simp only [List.foldl_cons, List.filter_cons, hpass, Bool.false_eq_true, if_false]
      rw [show domainStep x0 x1 val acc p = acc from by simp [domainStep, if_pos hv]]
      exact ih acc
    · have hpass : visiblePass x0 x1 p = true := (visiblePass_true_iff x0 x1 p).mpr hv
      simp only [List.foldl_cons, List.filter_cons, hpass, if_true]
      rw [show domainStep x0 x1 val acc p = domainStepAll val acc p from by
        simp [domainStep, domainStepAll, if_neg hv]]
      exact ih _

theorem drawSeriesGo_eq_filtered (val : NormPoint → Option ℚ) (plot : Plot) (dom : ℚ × ℚ) :
    ∀ (data : List NormPoint) (started : Bool),
      drawSeriesGo val plot dom data started =
        drawSeriesGoAll val plot dom (data.filter (visiblePass plot.x0 plot.x1)) started := by
  intro data
  induction data with
  | nil => intro started; rfl
  | cons p ps ih =>
    intro started
    by_cases hv : p.x < plot.x0 ∨ p.x > plot.x1
    · have hpass : visiblePass plot.x0 plot.x1 p = false :=
        (visiblePass_false_iff plot.x0 plot.x1 p).mpr hv
      simp only [drawSeriesGo, if_pos hv, List.filter_cons, hpass, Bool.false_eq_true, if_false]
      exact ih started
    · have hpass : visiblePass plot.x0 plot.x1 p = true :=
        (visiblePass_true_iff plot.x0 plot.x1 p).mpr hv
      simp only [drawSeriesGo, if_neg hv, List.filter_cons, hpass, if_true, drawSeriesGoAll]
      cases hval : val p with
      | none => exact ih started
      | some w => exact congrArg _ (ih true)

/-- Claim C10: viewport filtering is boundary-inclusive: the shared
visibility test rejects exactly the points with `x` strictly below
`visibleStart` or strictly above `visibleEnd`, so a point with `x` equal to
either bound passes, and both the domain scan and the series-drawing loop
consume exactly the boundary-inclusive filtered point list. -/
theorem visibility_boundary_inclusive (x0 x1 : ℚ) (p : NormPoint) (hle : x0 ≤ x1)
    (hp : p.x = x0 ∨ p.x = x1) :
    visiblePass x0 x1 p = true ∧
      (∀ q : NormPoint, visiblePass x0 x1 q = false ↔ (q.x < x0 ∨ q.x > x1)) ∧
      (∀ (val : NormPoint → Option ℚ) (data : List NormPoint),
        domainScan val x0 x1 data = domainScanAll val (data.filter (visiblePass x0 x1))) ∧
      (∀ (val : NormPoint → Option ℚ) (plot : Plot) (dom : ℚ × ℚ) (data : List NormPoint),
        plot.x0 = x0 → plot.x1 = x1 →
        drawSeriesPath data val plot dom =
          drawSeriesGoAll val plot dom (data.filter (visiblePass x0 x1)) false) := by
  refine ⟨?_, fun q => visiblePass_false_iff x0 x1 q, ?_, ?_⟩
  · rw [visiblePass_true_iff]
    rcases hp with h | h <;> rw [h] <;> push_neg <;> constructor <;> linarith
  · intro val data
    exact domainScan_eq_filtered val x0 x1 data none
  · intro val plot dom data hx0 hx1
    have := drawSeriesGo_eq_filtered val plot dom data false
    rw [hx0, hx1] at this
    exact this

theorem visibility_boundary_witness :
    visiblePass 0 10 ⟨0, some 1, some 1, some 1⟩ = true ∧
      visiblePass 0 10 ⟨10, some 1, some 1, some 1⟩ = true ∧
      domainScan NormPoint.temp_OUT 0 10 dataGap =
        domainScanAll NormPoint.temp_OUT (dataGap.filter (visiblePass 0 10)) :=
  ⟨(visibility_boundary_inclusive 0 10 ⟨0, some 1, some 1, some 1⟩ (by norm_num)
      (Or.inl rfl)).1,
    (visibility_boundary_inclusive 0 10 ⟨10, some 1, some 1, some 1⟩ (by norm_num)
      (Or.inr rfl)).1,
    (visibility_boundary_inclusive 0 10 ⟨0, some 1, some 1, some 1⟩ (by norm_num)
      (Or.inl rfl)).2.2.1 NormPoint.temp_OUT dataGap⟩

/-! ## Nice tick step selection -/

theorem foldClosest_mem (r : ℚ) :
    ∀ (l : List ℚ) (init : ℚ),
      l.foldl (fun s c => if |c - r| < |s - r| then c else s) init = init ∨
        l.foldl (fun s c => if |c - r| < |s - r| then c else s) init ∈ l := by
  intro l
  induction l with
  | nil => intro init; exact Or.inl rfl
  | cons c cs ih =>
    intro init
    rw [List.foldl_cons]
    by_cases h : |c - r| < |init - r|
    · rw [if_pos h]
      rcases ih c with h' | h'
      · exact Or.inr (by rw [h']; exact List.mem_cons_self c cs)
      · exact Or.inr (List.mem_cons_of_mem c h')
    · rw [if_neg h]
      rcases ih init with h' | h'
      · exact Or.inl h'
      · exact Or.inr (List.mem_cons_of_mem c h')

theorem foldClosest_le (r : ℚ) :
    ∀ (l : List ℚ) (init : ℚ),
      |l.foldl (fun s c => if |c - r| < |s - r| then c else s) init - r| ≤ |init - r| ∧
        ∀ c ∈ l, |l.foldl (fun s c => if |c - r| < |s - r| then c else s) init - r| ≤ |c - r| := by
  intro l
  induction l with
  | nil =>
    intro init
    exact ⟨le_refl _, by intro c hc; cases hc⟩
  | cons c cs ih =>
    intro init
    rw [List.foldl_cons]
    by_cases h : |c - r| < |init - r|
    · rw [if_pos h]
      refine ⟨le_trans (ih c).1 (le_of_lt h), ?_⟩
      intro d hd
      rcases List.mem_cons.mp hd with rfl | hd'
      · exact (ih _).1
      · exact (ih _).2 d hd'
    · rw [if_neg h]
      refine ⟨(ih init).1, ?_⟩
      intro d hd
      rcases List.mem_cons.mp hd with rfl | hd'
      · exact le_trans (ih init).1 (not_lt.mp h)
      · exact (ih init).2 d hd'

theorem natlog_16 : Nat.log 10 16 = 1 :=
  Nat.log_eq_of_pow_le_of_lt_pow (by norm_num) (by norm_num)

theorem intlog_rawstep_example : Int.log 10 (|(100 : ℚ) - 0| / 6) = 1 := by
  have h : |(100 : ℚ) - 0| / 6 = 50 / 3 := by norm_num
  rw [h, Int.log_of_one_le_right _ (by norm_num)]
  have h16 : ⌊(50 : ℚ) / 3⌋₊ = 16 := by
    rw [Nat.floor_eq_iff (by norm_num)]
    norm_num
  rw [h16, natlog_16]
  norm_num

theorem niceTicksStep_example : niceTicksStep 0 100 6 = 20 := by
  simp only [niceTicksStep]
  rw [if_neg (by norm_num)]
  simp only [intlog_rawstep_example]
  norm_num [List.foldl, abs_of_nonneg, abs_of_nonpos]

/-- Claim C6: for `min < max` and positive `targetCount`, the selected step is
one of `{1, 2, 5, 10} * 10 ^ ⌊log10 ((max - min) / targetCount)⌋` and is
closest (no candidate is strictly closer) to the raw step
`(max - min) / targetCount`; in particular `niceTicks 0 100 6` selects
exactly 20. -/
theorem niceTicksStep_closest_candidate (mn mx tc : ℚ) (h : mn < mx) (htc : 0 < tc) :
    (∃ m ∈ ([1, 2, 5, 10] : List ℚ),
        niceTicksStep mn mx tc = m * (10 : ℚ) ^ (Int.log 10 ((mx - mn) / tc))) ∧
      (∀ m ∈ ([1, 2, 5, 10] : List ℚ),
        |niceTicksStep mn mx tc - (mx - mn) / tc| ≤
          |m * (10 : ℚ) ^ (Int.log 10 ((mx - mn) / tc)) - (mx - mn) / tc|) ∧
      niceTicksStep 0 100 6 = 20 := by
  have habs : |mx - mn| = mx - mn := abs_of_pos (sub_pos.mpr h)
  have hne : ¬ mn = mx := ne_of_lt h
  refine ⟨?_, ?_, niceTicksStep_example⟩
  · simp only [niceTicksStep, if_neg hne, habs]
    set r := (mx - mn) / tc with hr
    set p := (10 : ℚ) ^ (Int.log 10 r) with hp
    have hmem := foldClosest_mem r (([1, 2, 5, 10] : List ℚ).map (fun c => c * p))
      ((([1, 2, 5, 10] : List ℚ).map (fun c => c * p)).headD 0)
    rcases hmem with h' | h'
    · refine ⟨1, by norm_num, ?_⟩
      rw [h']
      simp [List.headD]
    · rcases List.mem_map.mp h' with ⟨m, hm, hmeq⟩
      exact ⟨m, hm, hmeq.symm⟩
  · intro m hm
    simp only [niceTicksStep, if_neg hne, habs]
    set r := (mx - mn) / tc with hr
    set p := (10 : ℚ) ^ (Int.log 10 r) with hp
    have hle := foldClosest_le r (([1, 2, 5, 10] : List ℚ).map (fun c => c * p))
      ((([1, 2, 5, 10] : List ℚ).map (fun c => c * p)).headD 0)
    exact hle.2 (m * p) (List.mem_map.mpr ⟨m, hm, rfl⟩)

theorem niceTicksStep_witness :
    (0 : ℚ) < 100 ∧ (0 : ℚ) < 6 ∧ niceTicksStep 0 100 6 = 20 :=
  ⟨by norm_num, by norm_num,
    (niceTicksStep_closest_candidate 0 100 6 (by norm_num) (by norm_num)).2.2⟩

/-! ## Ingestion -/

/-- Claim C9 (amended): a pre-split row survives `parseCSV` exactly when its
column count matches the header count; a parsed row is accepted into the
dataset exactly when its composed timestamp is finite — channel fields that
fail to parse do NOT cause rejection, they are kept as non-finite values —
and the accepted rows are sorted ascending by timestamp.  (The claim as
stated — acceptance requires ALL fields to parse — is refuted by the
counterexample.) -/
theorem ingestion_accept_iff_time_finite_sorted
    (jsNum : String → Option ℚ)
    (jsDateMs : Field → Field → Field → Field → Field → Field → Option ℚ)
    (headers : List String) (rawRows : List (List String)) (rows : List (List Field)) :
    (∀ fs : List Field, fs ∈ parseCSVrows jsNum headers rawRows ↔
        ∃ cols, cols ∈ rawRows ∧ cols.length = headers.length ∧
          fs = cols.map (toField jsNum)) ∧
      (∀ p : NormPoint, p ∈ normRows jsDateMs headers rows ↔
        ∃ fs, fs ∈ rows ∧ ∃ x : ℚ, rowTime jsDateMs headers fs = some x ∧
          p = buildPoint headers fs x) ∧
      List.Sorted leX (normRows jsDateMs headers rows) := by
  refine ⟨?_, ?_, List.sorted_insertionSort leX _⟩
  · intro fs
    simp only [parseCSVrows, List.mem_map, List.mem_filter, decide_eq_true_eq]
    constructor
    · rintro ⟨cols, ⟨hmem, hlen⟩, heq⟩
      exact ⟨cols, hmem, hlen, heq.symm⟩
    · rintro ⟨cols, hmem, hlen, heq⟩
      exact ⟨cols, ⟨hmem, hlen⟩, heq.symm⟩
  · intro p
    rw [normRows, List.mem_insertionSort, List.mem_filterMap]
    constructor
    · rintro ⟨fs, hmem, heq⟩
      cases ht : rowTime jsDateMs headers fs with
      | none => rw [ht] at heq; cases heq
      | some x =>
        rw [ht] at heq
        simp only [Option.some.injEq] at heq
        exact ⟨fs, hmem, x, ht, heq.symm⟩
    · rintro ⟨fs, hmem, x, ht, heq⟩
      refine ⟨fs, hmem, ?_⟩
      rw [ht, heq]

theorem ingestion_accept_sorted_witness :
    List.Sorted leX (normRows jsDateT headersT (parseCSVrows jsNumT headersT [rowBadTemp])) :=
  (ingestion_accept_iff_time_finite_sorted jsNumT jsDateT headersT [rowBadTemp]
    (parseCSVrows jsNumT headersT [rowBadTemp])).2.2

/-- Counterexample to Claim C9 as stated: the test row's `temp_OUT` cell
"abc" does not parse (it is kept as a string, i.e. a non-finite value), yet
the row is accepted into the dataset because its composed timestamp is
finite — acceptance does not require all fields to parse. -/
theorem row_accepted_with_unparsed_field :
    getField (objOf headersT (rowBadTemp.map (toField jsNumT))) "temp_OUT" = Field.str "abc" ∧
      fieldNum (getField (objOf headersT (rowBadTemp.map (toField jsNumT))) "temp_OUT") =
        none ∧
      normRows jsDateT headersT (parseCSVrows jsNumT headersT [rowBadTemp]) =
        [⟨65123308800, none, some 40, some 120⟩] := by
  refine ⟨?_, ?_, ?_⟩
  · norm_num +decide [jsNumT, headersT, rowBadTemp, toField, objOf, getField, List.find?,
      List.zip, List.zipWith]
  · norm_num +decide [jsNumT, headersT, rowBadTemp, toField, objOf, getField, fieldNum,
      List.find?, List.zip, List.zipWith]
  · norm_num +decide [normRows, parseCSVrows, jsNumT, jsDateT, headersT, rowBadTemp, toField,
      objOf, getField, fieldNum, rowTime, buildPoint, List.filter, List.filterMap,
      List.insertionSort, List.orderedInsert, List.find?, List.zip, List.zipWith]

/-! ## Hit testing -/

theorem sorted_getD_mono (data : List NormPoint) (hs : List.Sorted leX data) :
    ∀ i j : ℕ, i ≤ j → j < data.length →
      (data.getD i dfltPoint).x ≤ (data.getD j dfltPoint).x := by
  intro i j hij hj
  rcases eq_or_lt_of_le hij with rfl | hlt
  · exact le_refl _
  · have hi : i < data.length := lt_trans hlt hj
    rw [List.getD_eq_get _ _ hi, List.getD_eq_get _ _ hj]
    exact List.pairwise_iff_get.mp hs ⟨i, hi⟩ ⟨j, hj⟩ hlt

theorem lbAux_spec (data : List NormPoint) (xVal : ℚ)
    (hmono : ∀ i j : ℕ, i ≤ j → j < data.length →
      (data.getD i dfltPoint).x ≤ (data.getD j dfltPoint).x) :
    ∀ (fuel lo hi : ℕ), lo ≤ hi → hi ≤ data.length - 1 → hi - lo ≤ fuel →
      (∀ i, i < lo → (data.getD i dfltPoint).x < xVal) →
      (hi = data.length - 1 ∨ xVal ≤ (data.getD hi dfltPoint).x) →
      lo ≤ lbAux data xVal fuel lo hi ∧ lbAux data xVal fuel lo hi ≤ hi ∧
        (∀ i, i < lbAux data xVal fuel lo hi → (data.getD i dfltPoint).x < xVal) ∧
        (lbAux data xVal fuel lo hi = data.length - 1 ∨
          xVal ≤ (data.getD (lbAux data xVal fuel lo hi) dfltPoint).x) := by
  intro fuel
  induction fuel with
  | zero =>
    intro lo hi hlohi hhi hfuel hinv3 hinv4
    have heq : lo = hi := by omega
    subst heq
    simp only [lbAux]
    exact ⟨le_refl _, le_refl _, hinv3, hinv4⟩
  | succ fuel ih =>
    intro lo hi hlohi hhi hfuel hinv3 hinv4
    simp only [lbAux]
    by_cases hlt : lo < hi
    · rw [if_pos hlt]
      have hmid1 : lo ≤ (lo + hi) / 2 := by omega
      have hmid2 : (lo + hi) / 2 < hi := by omega
      have hlen : hi < data.length := by omega
      by_cases hcmp : (data.getD ((lo + hi) / 2) dfltPoint).x < xVal
      · rw [if_pos hcmp]
        have hnew3 : ∀ i, i < (lo + hi) / 2 + 1 → (data.getD i dfltPoint).x < xVal := by
          intro i hi'
          rcases lt_or_ge i lo with h' | h'
          · exact hinv3 i h'
          · exact lt_of_le_of_lt (hmono i ((lo + hi) / 2) (by omega) (by omega)) hcmp
        obtain ⟨ha, hb, hc, hd⟩ :=
          ih ((lo + hi) / 2 + 1) hi (by omega) hhi (by omega) hnew3 hinv4
        exact ⟨by omega, hb, hc, hd⟩
      · rw [if_neg hcmp]
        obtain ⟨ha, hb, hc, hd⟩ := ih lo ((lo + hi) / 2) (by omega) (by omega) (by omega)
          hinv3 (Or.inr (not_lt.mp hcmp))
        exact ⟨ha, by omega, hc, hd⟩
    · rw [if_neg hlt]
      have heq : lo = hi := by omega
      subst heq
      exact ⟨le_refl _, le_refl _, hinv3, hinv4⟩

theorem lowerBoundIdx_spec (data : List NormPoint) (xVal : ℚ) (hne : data ≠ [])
    (hmono : ∀ i j : ℕ, i ≤ j → j < data.length →
      (data.getD i dfltPoint).x ≤ (data.getD j dfltPoint).x) :
    lowerBoundIdx data xVal ≤ data.length - 1 ∧
      (∀ i, i < lowerBoundIdx data xVal → (data.getD i dfltPoint).x < xVal) ∧
      (lowerBoundIdx data xVal = data.length - 1 ∨
        xVal ≤ (data.getD (lowerBoundIdx data xVal) dfltPoint).x) := by
  have hlen : 0 < data.length := List.length_pos.mpr hne
  have h := lbAux_spec data xVal hmono data.length 0 (data.length - 1) (by omega) (le_refl _)
    (by omega) (fun i h => absurd h (Nat.not_lt_zero i)) (Or.inl rfl)
  exact ⟨h.2.1, h.2.2.1, h.2.2.2⟩

theorem mem_hitCandidates (data : List NormPoint) (lo : ℕ) (i : ℤ) :
    i ∈ hitCandidates data lo ↔
      (i = (lo : ℤ) ∨ i = (lo : ℤ) - 1 ∨ i = (lo : ℤ) + 1) ∧
        0 ≤ i ∧ i < (data.length : ℤ) := by
  simp [hitCandidates, List.mem_filter]

theorem bestFold_go (data : List NormPoint) (xVal : ℚ) :
    ∀ (l : List ℤ) (b : ℤ),
      (List.foldl (bestStep data xVal) (b, some (distTo data xVal b)) l).1 ∈ b :: l ∧
        distTo data xVal (List.foldl (bestStep data xVal)
            (b, some (distTo data xVal b)) l).1 ≤ distTo data xVal b ∧
        ∀ i ∈ l, distTo data xVal (List.foldl (bestStep data xVal)
            (b, some (distTo data xVal b)) l).1 ≤ distTo data xVal i := by
  intro l
  induction l with
  | nil =>
    intro b
    exact ⟨List.mem_cons_self _ _, le_refl _, fun i hi => absurd hi (List.not_mem_nil i)⟩
  | cons i l ih =>
    intro b
    rw [List.foldl_cons]
    have hdx : |(data.getD i.toNat dfltPoint).x - xVal| = distTo data xVal i := rfl
    by_cases hcmp : distTo data xVal i < distTo data xVal b
    · have hstep : bestStep data xVal (b, some (distTo data xVal b)) i =
          (i, some (distTo data xVal i)) := by
        simp only [bestStep]
        rw [hdx, if_pos hcmp]
      rw [hstep]
      obtain ⟨hmem, hle, hall⟩ := ih i
      refine ⟨List.mem_cons_of_mem b hmem, le_trans hle (le_of_lt hcmp), ?_⟩
      intro j hj
      rcases List.mem_cons.mp hj with rfl | hj'
      · exact hle
      · exact hall j hj'
    · have hstep : bestStep data xVal (b, some (distTo data xVal b)) i =
          (b, some (distTo data xVal b)) := by
        simp only [bestStep]
        rw [hdx, if_neg hcmp]
      rw [hstep]
      obtain ⟨hmem, hle, hall⟩ := ih b
      refine ⟨?_, hle, ?_⟩
      · rcases List.mem_cons.mp hmem with h | h
        · exact List.mem_cons.mpr (Or.inl h)
        · exact List.mem_cons.mpr (Or.inr (List.mem_cons_of_mem i h))
      · intro j hj
        rcases List.mem_cons.mp hj with rfl | hj'
        · exact le_trans hle (not_lt.mp hcmp)
        · exact hall j hj'

theorem pickBest_spec (data : List NormPoint) (xVal : ℚ) (c : ℤ) (rest : List ℤ) :
    (pickBest data xVal (c :: rest) (c, none)).1 ∈ c :: rest ∧
      ∀ i ∈ c :: rest,
        distTo data xVal (pickBest data xVal (c :: rest) (c, none)).1 ≤
          distTo data xVal i := by
  have hstep : bestStep data xVal (c, none) c = (c, some (distTo data xVal c)) := rfl
  unfold pickBest
  rw [List.foldl_cons, hstep]
  obtain ⟨hmem, hle, hall⟩ := bestFold_go data xVal rest c
  refine ⟨hmem, ?_⟩
  intro i hi
  rcases List.mem_cons.mp hi with rfl | hi'
  · exact hle
  · exact hall i hi'

theorem hitTest_example :
    hitTest dataFive ⟨0, 40⟩ 680 520 (1838 / 5) 100 =
      some ⟨20, some 1, some 1, some 1⟩ := by
  norm_num [hitTest, invertX, lowerBoundIdx, lbAux, hitCandidates, pickBest, bestStep, dataFive,
    padLeft, padRight, padTop, padBottom, legendH, List.getD, List.foldl, List.filter,
    abs_of_nonneg, abs_of_nonpos, dfltPoint,
    show Int.toNat 2 = 2 from rfl, show Int.toNat 3 = 3 from rfl, show Int.toNat 4 = 4 from rfl]

/-- Claim C3 (amended): on a time-sorted sequence, every hit returned by
`hitTest` has minimal absolute time distance to the inverted target time over
the whole sequence; and on x = [0,10,20,30,40] with a pixel mapping to time
22 the returned point has x = 20.  Ties are NOT always broken towards the
first point in sort order (the binary-search index wins over its left
neighbour): see the counterexample. -/
theorem hitTest_nearest_point (data : List NormPoint) (view : Viewport)
    (cssW cssH cssX cssY : ℚ) (hs : List.Sorted leX data) :
    (∀ p : NormPoint, hitTest data view cssW cssH cssX cssY = some p →
        ∀ q ∈ data, |p.x - invertX view padLeft (cssW - padRight) cssX| ≤
          |q.x - invertX view padLeft (cssW - padRight) cssX|) ∧
      hitTest dataFive ⟨0, 40⟩ 680 520 (1838 / 5) 100 =
        some ⟨20, some 1, some 1, some 1⟩ := by
  refine ⟨?_, hitTest_example⟩
  intro p hp q hq
  have hmono := sorted_getD_mono data hs
  simp only [hitTest] at hp
  split at hp
  · exact absurd hp (by simp)
  · split at hp
    · exact absurd hp (by simp)
    · rename_i hnz hbounds
      set xVal := invertX view padLeft (cssW - padRight) cssX with hxVal
      set lb := lowerBoundIdx data xVal with hlb
      rcases hcands : hitCandidates data lb with _ | ⟨c, tail⟩
      · rw [hcands] at hp
        exact absurd hp (by simp)
      · rw [hcands] at hp
        simp only [Option.some.injEq] at hp
        have hne : data ≠ [] := by
          intro h
          exact hnz (by rw [h]; rfl)
        have hlen : 0 < data.length := List.length_pos.mpr hne
        obtain ⟨hlb1, hinv3, hinv4⟩ := lowerBoundIdx_spec data xVal hne hmono
        have hglobal : ∀ j : ℕ, j < data.length →
            ∃ i ∈ hitCandidates data lb,
              distTo data xVal i ≤ |(data.getD j dfltPoint).x - xVal| := by
          intro j hj
          rcases lt_or_ge j lb with hjlb | hjlb
          · have hlbpos : 1 ≤ lb := by omega
            refine ⟨(lb : ℤ) - 1, ?_, ?_⟩
            · rw [mem_hitCandidates]
              exact ⟨Or.inr (Or.inl rfl), by omega, by omega⟩
            · have htn : ((lb : ℤ) - 1).toNat = lb - 1 := by omega
              unfold distTo
              rw [htn]
              have h1 : (data.getD (lb - 1) dfltPoint).x < xVal := hinv3 (lb - 1) (by omega)
              have h2 : (data.getD j dfltPoint).x ≤ (data.getD (lb - 1) dfltPoint).x :=
                hmono j (lb - 1) (by omega) (by omega)
              rw [abs_of_neg (by linarith), abs_of_neg (by linarith)]
              linarith
          · refine ⟨(lb : ℤ), ?_, ?_⟩
            · rw [mem_hitCandidates]
              exact ⟨Or.inl rfl, by omega, by omega⟩
            · have htn : ((lb : ℤ)).toNat = lb := by omega
              unfold distTo
              rw [htn]
              rcases hinv4 with hl | hr
              · have hjeq : j = lb := by omega
                rw [hjeq]
              · have h2 : (data.getD lb dfltPoint).x ≤ (data.getD j dfltPoint).x :=
                  hmono lb j hjlb hj
                rw [abs_of_nonneg (by linarith), abs_of_nonneg (by linarith)]
                linarith
        obtain ⟨hbmem, hball⟩ := pickBest_spec data xVal c tail
        obtain ⟨jf, hjf⟩ := List.mem_iff_get.mp hq
        have hq' : q = data.getD jf.1 dfltPoint := by
          rw [List.getD_eq_get _ _ jf.2]
          exact hjf.symm
        obtain ⟨i, hiC, hile⟩ := hglobal jf.1 jf.2
        rw [hcands] at hiC
        have hchain := le_trans (hball i hiC) hile
        rw [← hp]
        unfold distTo at hchain
        rw [hq']
        exact hchain

theorem hitTest_nearest_witness :
    List.Sorted leX dataFive ∧
      hitTest dataFive ⟨0, 40⟩ 680 520 (1838 / 5) 100 =
        some ⟨20, some 1, some 1, some 1⟩ := by
  have hs : List.Sorted leX dataFive := by decide
  exact ⟨hs, (hitTest_nearest_point dataFive ⟨0, 40⟩ 680 520 (1838 / 5) 100 hs).2⟩

/-- Counterexample to Claim C3 as stated: on the sorted sequence
x = [0, 10], the pixel 340 inverts to time 5, exactly midway; both points tie
in distance, the first in sort order is the point at x = 0 (as `firstNearest`,
the spec's tie-break, selects), yet `hitTest` returns the point at x = 10. -/
theorem hitTest_tie_not_first_in_order :
    List.Sorted leX dataTie ∧
      invertX ⟨0, 10⟩ padLeft (680 - padRight) 340 = 5 ∧
      |(0 : ℚ) - 5| = |(10 : ℚ) - 5| ∧
      hitTest dataTie ⟨0, 10⟩ 680 520 340 100 = some ⟨10, some 1, some 1, some 1⟩ ∧
      firstNearest dataTie 5 = some ⟨0, some 1, some 1, some 1⟩ ∧
      hitTest dataTie ⟨0, 10⟩ 680 520 340 100 ≠ firstNearest dataTie 5 := by
  refine ⟨by decide, ?_, by norm_num, ?_, ?_, ?_⟩
  · norm_num [invertX, padLeft, padRight]
  · norm_num [hitTest, invertX, lowerBoundIdx, lbAux, hitCandidates, pickBest, bestStep,
      dataTie, padLeft, padRight, padTop, padBottom, legendH, List.getD, List.foldl,
      List.filter, abs_of_nonneg, abs_of_nonpos, dfltPoint]
  · norm_num [firstNearest, dataTie, List.foldl, abs_of_nonneg, abs_of_nonpos]
  · have h1 : hitTest dataTie ⟨0, 10⟩ 680 520 340 100 =
        some ⟨10, some 1, some 1, some 1⟩ := by
      norm_num [hitTest, invertX, lowerBoundIdx, lbAux, hitCandidates, pickBest, bestStep,
        dataTie, padLeft, padRight, padTop, padBottom, legendH, List.getD, List.foldl,
        List.filter, abs_of_nonneg, abs_of_nonpos, dfltPoint]
    have h2 : firstNearest dataTie 5 = some ⟨0, some 1, some 1, some 1⟩ := by
      norm_num [firstNearest, dataTie, List.foldl, abs_of_nonneg, abs_of_nonpos]
    rw [h1, h2]
    intro h
    simp only [Option.some.injEq, NormPoint.mk.injEq] at h
    exact absurd h.1 (by norm_num)

end EnvLogger
